import Mathlib

/-!
Formal model of the player re-identification tracker
(`src/utils/tracker.py` and the detection-preparation loop of `src/main.py`).

Modelling conventions:
* A track record (`{'centroid': ..., 'hist': ..., 'disappeared': ...}`) becomes
  the structure `Track`; the tracker's dictionary `self.tracked_players` becomes
  an insertion-ordered association list `List (Nat × Track)` (Python 3.7+ dicts
  preserve insertion order, and `del` preserves the relative order of the
  remaining keys, which the order-preserving `List.filter` mirrors).
* Centroids are integer pixel pairs (as produced by `main.py`); the Euclidean
  distance comparisons of `scipy.spatial.distance.cdist` are modelled exactly by
  comparing squared distances (`d < m ↔ d² < m²` for `m ≥ 0`, and `argmin` over
  distances equals `argmin` over squared distances).
* Histograms are rational vectors.  The float comparison
  `cv2.compareHist(h1, h2, HISTCMP_CORREL) > 0.5` is modelled exactly, in
  division- and square-root-free form, by `correl_gt_half`: OpenCV computes
  `num / sqrt(denom2)` with `num = S12 - S1*S2/N`,
  `denom2 = (S11 - S1²/N)(S22 - S2²/N)`, and returns `1.0` when `denom2` is
  (essentially) zero; multiplying through by `N` resp. `N²` the comparison
  `num / sqrt(denom2) > 1/2` is equivalent to
  `denom2 = 0 ∨ (0 < num' ∧ denom2' < 4 num'²)`.
* `numpy.argmin` (first minimal index) is modelled by `argminIdx`.
* The `cv2.cvtColor` failure on an empty crop inside `_calculate_histogram`
  (a Python exception propagating out of `update`) is modelled by `Except`,
  the error carrying the state as mutated at raise time: the cold-start branch
  (lines 81-83) interleaves extraction with registration, so detections before
  the failure are already registered, while the general case extracts every
  fingerprint (line 92) before any mutation.  Numpy's implicit clipping of
  slice bounds is modelled by `sliceLen`.
-/

/-- A colour-histogram appearance fingerprint (`hist`), a vector of bin values. -/
abbrev Hist := List ℚ

/-- A pixel centroid `(cx, cy)`. -/
abbrev Centroid := Int × Int

/-- One entry of `self.tracked_players`:
`{'centroid': (x, y), 'hist': hist, 'disappeared': n}`. -/
structure Track where
  centroid : Centroid
  hist : Hist
  disappeared : Nat
deriving DecidableEq

/-- The state of `ReIDTracker`: the id counter `self.next_player_id`, the
insertion-ordered dictionary `self.tracked_players`, and the configuration
`max_disappeared`, `max_distance`. -/
structure ReIDTracker where
  next_player_id : Nat
  tracked_players : List (Nat × Track)
  max_disappeared : Nat
  max_distance : Nat
deriving DecidableEq

/-- `ReIDTracker.__init__`: fresh tracker with id counter 0 and no tracks. -/
def ReIDTracker.init (max_disappeared : Nat) (max_distance : Nat) : ReIDTracker :=
  { next_player_id := 0
    tracked_players := []
    max_disappeared := max_disappeared
    max_distance := max_distance }

/-- Sum of a rational list (helper for the correlation comparison). -/
def sumQ (l : List ℚ) : ℚ := l.foldr (fun a b => a + b) 0

/-- Exact model of `cv2.compareHist(h1, h2, cv2.HISTCMP_CORREL) > 0.5`.
OpenCV computes the Pearson correlation `num / sqrt(denom2)` and returns `1.0`
when `denom2` vanishes; in exact arithmetic, and after clearing denominators,
the strict comparison with `0.5` is as below. -/
def correl_gt_half (h1 h2 : Hist) : Bool :=
  let n : ℚ := h1.length
  let s1 := sumQ h1
  let s2 := sumQ h2
  let s11 := sumQ (h1.map fun x => x * x)
  let s22 := sumQ (h2.map fun x => x * x)
  let s12 := sumQ ((h1.zip h2).map fun p => p.1 * p.2)
  let num := n * s12 - s1 * s2
  let den1 := n * s11 - s1 * s1
  let den2 := n * s22 - s2 * s2
  if den1 * den2 = 0 then true
  else decide (0 < num) && decide (den1 * den2 < 4 * (num * num))

/-- Squared Euclidean distance between two centroids (`cdist` entries, squared). -/
def dist2 (a b : Centroid) : Int := (a.1 - b.1) ^ 2 + (a.2 - b.2) ^ 2

/-- `numpy.argmin` on a row: index of the first minimal element (ties broken by
lowest index), `0` on the empty list. -/
def argminIdx : List Int → Nat
  | [] => 0
  | [_] => 0
  | v :: w :: rest =>
    let r := argminIdx (w :: rest)
    if (w :: rest).getD r 0 < v then r + 1 else 0

/-- Default detection used only to totalise list indexing (never hit on the
in-bounds indices the tracker produces). -/
def detDefault : Centroid × Hist := ((0, 0), [])

/-- `matched_indices[i] = dist_matrix.argmin(axis=1)[i]`: the detection column
of minimum Euclidean distance from the given track centroid. -/
def argminRow (c : Centroid) (dets : List (Centroid × Hist)) : Nat :=
  argminIdx (dets.map fun d => dist2 c d.1)

/-- `ReIDTracker.register`: store a new track under `next_player_id` (dict
insertion appends at the end) and increment the id counter. -/
def ReIDTracker.register (s : ReIDTracker) (centroid : Centroid) (histogram : Hist) :
    ReIDTracker :=
  { s with
    tracked_players :=
      s.tracked_players ++
        [(s.next_player_id, { centroid := centroid, hist := histogram, disappeared := 0 })]
    next_player_id := s.next_player_id + 1 }

/-- `ReIDTracker.deregister`: delete a player id from the dictionary
(order of the remaining entries is preserved). -/
def ReIDTracker.deregister (s : ReIDTracker) (player_id : Nat) : ReIDTracker :=
  { s with tracked_players := s.tracked_players.filter fun p => decide (p.1 ≠ player_id) }

/-- The matching loop of `update` (tracker.py lines 114-132): walk the live
tracks in dictionary order threading the `used_new_indices` set; an accepted
match rewrites `centroid` and resets `disappeared` (the stored `hist` is left
unchanged by the source) and claims the column; otherwise the counter is
incremented and the track dropped when it exceeds `max_disappeared`. -/
def matchLoop (max_distance max_disappeared : Nat) (dets : List (Centroid × Hist)) :
    List (Nat × Track) → List Nat → List (Nat × Track) × List Nat
  | [], used => ([], used)
  | (pid, tr) :: rest, used =>
    let j := argminRow tr.centroid dets
    let dj := dets.getD j detDefault
    if dist2 tr.centroid dj.1 < (max_distance : Int) ^ 2 ∧
        correl_gt_half tr.hist dj.2 = true ∧ j ∉ used then
      let res := matchLoop max_distance max_disappeared dets rest (j :: used)
      ((pid, { tr with centroid := dj.1, disappeared := 0 }) :: res.1, res.2)
    else if tr.disappeared + 1 > max_disappeared then
      matchLoop max_distance max_disappeared dets rest used
    else
      let res := matchLoop max_distance max_disappeared dets rest used
      ((pid, { tr with disappeared := tr.disappeared + 1 }) :: res.1, res.2)

/-- Ghost-instrumented copy of `matchLoop` that additionally records the list of
accepted assignments `(player_id, detection column)`; its first component is
proved to coincide with `matchLoop` (see the exclusivity theorem). -/
def matchLoopA (max_distance max_disappeared : Nat) (dets : List (Centroid × Hist)) :
    List (Nat × Track) → List Nat → (List (Nat × Track) × List Nat) × List (Nat × Nat)
  | [], used => (([], used), [])
  | (pid, tr) :: rest, used =>
    let j := argminRow tr.centroid dets
    let dj := dets.getD j detDefault
    if dist2 tr.centroid dj.1 < (max_distance : Int) ^ 2 ∧
        correl_gt_half tr.hist dj.2 = true ∧ j ∉ used then
      let res := matchLoopA max_distance max_disappeared dets rest (j :: used)
      (((pid, { tr with centroid := dj.1, disappeared := 0 }) :: res.1.1, res.1.2),
        (pid, j) :: res.2)
    else if tr.disappeared + 1 > max_disappeared then
      matchLoopA max_distance max_disappeared dets rest used
    else
      let res := matchLoopA max_distance max_disappeared dets rest used
      (((pid, { tr with disappeared := tr.disappeared + 1 }) :: res.1.1, res.1.2), res.2)

/-- The state transformation of `ReIDTracker.update` on detections whose
fingerprints have already been extracted (the source computes them at lines
82 and 92 before any matching; `updateCore` is that residue).
Branch 1 (no detections): age every track, dropping those whose counter
exceeds `max_disappeared`.  Branch 2 (no live tracks): register everything.
General case: run the matching loop, then register the unclaimed columns in
ascending column order (`set(range(len(detections))) - used_new_indices`). -/
def updateCore (s : ReIDTracker) (dets : List (Centroid × Hist)) : ReIDTracker :=
  if dets.isEmpty then
    { s with
      tracked_players :=
        (s.tracked_players.map fun e =>
            (e.1, { e.2 with disappeared := e.2.disappeared + 1 })).filter
          fun e => decide (e.2.disappeared ≤ s.max_disappeared) }
  else if s.tracked_players.isEmpty then
    dets.foldl (fun st d => st.register d.1 d.2) s
  else
    ((dets.enum.filter fun p =>
        decide (p.1 ∉ (matchLoop s.max_distance s.max_disappeared dets s.tracked_players []).2)).map
      Prod.snd).foldl (fun st d => st.register d.1 d.2)
      { s with
        tracked_players := (matchLoop s.max_distance s.max_disappeared dets s.tracked_players []).1 }

/-- A video frame as the tracker sees it: its dimensions (`frame.shape`) and, as
an abstract oracle for the external `cv2` pipeline, the fingerprint of each
(nonempty) crop. -/
structure Frame where
  rows : Int
  cols : Int
  histOf : Int × Int × Int × Int → Hist

/-- The error condition of fingerprint extraction: `cv2.cvtColor` raises on the
empty crop produced by a degenerate (zero/negative width or height after
clipping) bounding box. -/
inductive CvError where
  | invalidRegion
deriving DecidableEq

/-- Length of the Python slice `a[lo:hi]` of an axis of size `n` (numpy clips
out-of-range bounds; negative bounds count from the end). -/
def sliceLen (n lo hi : Int) : Int :=
  let l := if lo < 0 then max (n + lo) 0 else min lo n
  let r := if hi < 0 then max (n + hi) 0 else min hi n
  max (r - l) 0

/-- `ReIDTracker._calculate_histogram(frame, bbox)` with `bbox = (x1, y1, x2, y2)`:
crop `frame[int(y1):int(y2), int(x1):int(x2)]`; on an empty crop the `cv2`
colour conversion fails (modelled as `CvError.invalidRegion`), otherwise the
histogram of the crop is returned. -/
def calculate_histogram (frame : Frame) (bbox : Int × Int × Int × Int) :
    Except CvError Hist :=
  if sliceLen frame.rows bbox.2.1 bbox.2.2.2 = 0 ∨ sliceLen frame.cols bbox.1 bbox.2.2.1 = 0 then
    Except.error CvError.invalidRegion
  else
    Except.ok (frame.histOf bbox)

/-- One detection as handed to the tracker by `main.py`:
`{'bbox': (x1, y1, x2, y2), 'centroid': (cx, cy)}`. -/
structure Detection where
  bbox : Int × Int × Int × Int
  centroid : Centroid
deriving DecidableEq

/-- The cold-start loop of `update` (tracker.py lines 81-83): with no live
tracks, fingerprint extraction and registration are interleaved per detection,
so a failing extraction aborts the call with every earlier detection already
registered — the error carries the state as mutated at raise time. -/
def registerLoop (s : ReIDTracker) (detections : List Detection) (frame : Frame) :
    Except (CvError × ReIDTracker) ReIDTracker :=
  match detections with
  | [] => Except.ok s
  | d :: ds =>
    match calculate_histogram frame d.bbox with
    | Except.error e => Except.error (e, s)
    | Except.ok h => registerLoop (s.register d.centroid h) ds frame

/-- `ReIDTracker.update(detections, frame)` with the source's exception
semantics: a failing fingerprint extraction propagates out of the call as an
exception, and the error carries the state as mutated so far.  With no
detections (lines 73-78) no extraction happens.  With no live tracks (lines
80-84) extraction and registration are interleaved, so the state at the error
is the partial registration `registerLoop` reaches.  In the general case the
list comprehension at line 92 extracts every fingerprint before any matching
mutation, so an error there leaves the state unchanged. -/
def ReIDTracker.update (s : ReIDTracker) (detections : List Detection) (frame : Frame) :
    Except (CvError × ReIDTracker) ReIDTracker :=
  if detections.isEmpty then Except.ok (updateCore s [])
  else if s.tracked_players.isEmpty then registerLoop s detections frame
  else
    match detections.mapM fun d => calculate_histogram frame d.bbox with
    | Except.error e => Except.error (e, s)
    | Except.ok hists =>
      Except.ok (updateCore s (List.zipWith (fun d h => (d.centroid, h)) detections hists))

/-- The detection-preparation loop of `main.py` (lines 37-48): keep the boxes
whose class is `player` or `goalkeeper` and pair each with its midpoint
centroid; no further filtering (in particular none on box degeneracy). -/
def prepare_detections (boxes : List (String × (Int × Int × Int × Int))) : List Detection :=
  (boxes.filter fun b => decide (b.1 = "player" ∨ b.1 = "goalkeeper")).map fun b =>
    { bbox := b.2, centroid := ((b.2.1 + b.2.2.2.1) / 2, (b.2.2.1 + b.2.2.2.2) / 2) }

/-- A whole tracking session on pre-fingerprinted frames: fold `updateCore`. -/
def run (s : ReIDTracker) (frames : List (List (Centroid × Hist))) : ReIDTracker :=
  frames.foldl updateCore s

/-- Well-formedness of a tracker state: live ids are distinct and below the id
counter.  Holds for the fresh tracker and is preserved by `updateCore`. -/
def WF (s : ReIDTracker) : Prop :=
  (s.tracked_players.map Prod.fst).Nodup ∧
    ∀ p ∈ s.tracked_players.map Prod.fst, p < s.next_player_id

/-- The block of tracks that registering the listed detections appends,
starting from id `n` (spec §4.2 step 2/g: fresh consecutive identities,
counter 0, the detection's centroid and fingerprint). -/
def newEntries (n : Nat) : List (Centroid × Hist) → List (Nat × Track)
  | [] => []
  | d :: ds => (n, { centroid := d.1, hist := d.2, disappeared := 0 }) :: newEntries (n + 1) ds

/-- Spec wording of step (c) of §4.2: `j` is a column of minimal distance from
`c`, and every strictly earlier column has strictly larger distance (ties
broken by lowest column index). -/
def IsGreedyChoice (c : Centroid) (dets : List (Centroid × Hist)) (j : Nat) : Prop :=
  j < dets.length ∧
    (∀ k, k < dets.length →
      dist2 c (dets.getD j detDefault).1 ≤ dist2 c (dets.getD k detDefault).1) ∧
    ∀ k, k < j → dist2 c (dets.getD j detDefault).1 < dist2 c (dets.getD k detDefault).1

/-! ## Association-list and arithmetic helpers -/

/-- In a list with distinct keys, a key determines its entry. -/
lemma nodup_keys_eq {α : Type} {l : List (Nat × α)} (h : (l.map Prod.fst).Nodup)
    {p : Nat} {a b : α} (ha : (p, a) ∈ l) (hb : (p, b) ∈ l) : a = b := by
  induction l with
  | nil => simp at ha
  | cons e t ih =>
    rw [List.map_cons, List.nodup_cons] at h
    rcases List.mem_cons.mp ha with ha₁ | ha₁ <;> rcases List.mem_cons.mp hb with hb₁ | hb₁
    · exact (Prod.ext_iff.mp (ha₁.trans hb₁.symm)).2
    · exact absurd (List.mem_map.mpr ⟨(p, b), hb₁, by rw [← ha₁]⟩) h.1
    · exact absurd (List.mem_map.mpr ⟨(p, a), ha₁, by rw [← hb₁]⟩) h.1
    · exact ih h.2 ha₁ hb₁

/-- Sums of squares are nonnegative. -/
lemma sumQ_sq_nonneg (l : List ℚ) : 0 ≤ sumQ (l.map fun x => x * x) := by
  induction l with
  | nil => simp [sumQ]
  | cons x t ih =>
    have hx : 0 ≤ x * x := mul_self_nonneg x
    simpa [sumQ] using add_nonneg hx (by simpa [sumQ] using ih)

/-- Cauchy-Schwarz for list sums: `(Σ x)² ≤ n · Σ x²`. -/
lemma sq_sumQ_le (l : List ℚ) :
    sumQ l * sumQ l ≤ (l.length : ℚ) * sumQ (l.map fun x => x * x) := by
  induction l with
  | nil => simp [sumQ]
  | cons x t ih =>
    have hT : 0 ≤ sumQ (t.map fun x => x * x) := sumQ_sq_nonneg t
    have hn : (0 : ℚ) ≤ (t.length : ℚ) := by positivity
    have hS : sumQ (x :: t) = x + sumQ t := by simp [sumQ]
    have hSq : sumQ ((x :: t).map fun y => y * y) = x * x + sumQ (t.map fun y => y * y) := by
      simp [sumQ]
    rw [hS, hSq, List.length_cons]
    push_cast
    rcases eq_or_lt_of_le hn with hn0 | hnpos
    · have hS0 : sumQ t = 0 := by nlinarith [ih]
      rw [hS0, ← hn0]
      nlinarith [hT]
    · have hB : 0 ≤ (t.length : ℚ) * sumQ (t.map fun x => x * x) - sumQ t * sumQ t :=
        sub_nonneg.mpr ih
      nlinarith [ih, hT, hnpos, sq_nonneg ((t.length : ℚ) * x - sumQ t),
        mul_nonneg (le_of_lt hnpos) hB]

/-- Zipping a list with itself and multiplying componentwise squares it. -/
lemma zip_self_map (h : List ℚ) : (h.zip h).map (fun p => p.1 * p.2) = h.map fun x => x * x := by
  induction h with
  | nil => simp
  | cons x t ih => simpa using ih

/-- Correlating a fingerprint with itself always passes the `> 0.5` gate
(OpenCV returns 1.0 both in the generic and in the degenerate case). -/
lemma correl_gt_half_self (h : Hist) : correl_gt_half h h = true := by
  unfold correl_gt_half
  rw [zip_self_map]
  set n : ℚ := (h.length : ℚ) with hn
  set s1 := sumQ h with hs1
  set s11 := sumQ (h.map fun x => x * x) with hs11
  by_cases hz : (n * s11 - s1 * s1) * (n * s11 - s1 * s1) = 0
  · simp [hz]
  · have hnn : 0 ≤ n * s11 - s1 * s1 := by
      have := sq_sumQ_le h
      rw [← hs1, ← hs11, ← hn] at this
      linarith
    have hpos : 0 < n * s11 - s1 * s1 := by
      rcases lt_or_eq_of_le hnn with h' | h'
      · exact h'
      · exact absurd (by rw [← h']; ring) hz
    simp only [hz, if_false]
    rw [Bool.and_eq_true, decide_eq_true_eq, decide_eq_true_eq]
    exact ⟨hpos, by nlinarith⟩

/-! ## `numpy.argmin` characterization -/

/-- The argmin index is in bounds on a nonempty row. -/
lemma argminIdx_lt_length (l : List Int) (h : l ≠ []) : argminIdx l < l.length := by
  induction l with
  | nil => exact absurd rfl h
  | cons v rest ih =>
    cases rest with
    | nil => simp [argminIdx]
    | cons w t =>
      simp only [argminIdx]
      split
      · exact Nat.succ_lt_succ (ih (by simp))
      · simp

/-- The argmin entry is a minimum of the row. -/
lemma argminIdx_le (l : List Int) (h : l ≠ []) (k : Nat) (hk : k < l.length) :
    l.getD (argminIdx l) 0 ≤ l.getD k 0 := by
  induction l generalizing k with
  | nil => exact absurd rfl h
  | cons v rest ih =>
    cases rest with
    | nil =>
      have : k = 0 := by simpa using Nat.lt_one_iff.mp (by simpa using hk)
      simp [argminIdx, this]
    | cons w t =>
      simp only [argminIdx]
      split
      case isTrue hlt =>
        cases k with
        | zero => simpa using le_of_lt hlt
        | succ k' =>
          simpa using ih (by simp) k' (Nat.lt_of_succ_lt_succ hk)
      case isFalse hge =>
        cases k with
        | zero => simp
        | succ k' =>
          have h1 := ih (by simp) k' (Nat.lt_of_succ_lt_succ hk)
          have h2 : v ≤ (w :: t).getD (argminIdx (w :: t)) 0 := not_lt.mp hge
          simpa using le_trans h2 h1

/-- Ties are broken by the lowest index: every entry strictly before the argmin
is strictly larger. -/
lemma argminIdx_first (l : List Int) (k : Nat) (hk : k < argminIdx l) :
    l.getD (argminIdx l) 0 < l.getD k 0 := by
  induction l generalizing k with
  | nil => simp [argminIdx] at hk
  | cons v rest ih =>
    cases rest with
    | nil => simp [argminIdx] at hk
    | cons w t =>
      simp only [argminIdx] at hk ⊢
      split
      case isTrue hlt =>
        rw [if_pos hlt] at hk
        cases k with
        | zero => simpa using hlt
        | succ k' => simpa using ih k' (Nat.lt_of_succ_lt_succ hk)
      case isFalse hge =>
        rw [if_neg hge] at hk
        exact absurd hk (Nat.not_lt_zero k)

/-- Reading the mapped distance row at an in-bounds index. -/
lemma getD_map_dist (c : Centroid) (dets : List (Centroid × Hist)) (k : Nat)
    (hk : k < dets.length) :
    (dets.map fun d => dist2 c d.1).getD k 0 = dist2 c ((dets.getD k detDefault).1) := by
  induction dets generalizing k with
  | nil => simp at hk
  | cons d ds ih =>
    cases k with
    | zero => simp
    | succ k' => simpa using ih k' (Nat.lt_of_succ_lt_succ hk)

/-- The column chosen by the source (`dist_matrix.argmin(axis=1)`) satisfies the
spec's greedy-choice description: minimal distance, ties to the lowest index. -/
lemma argminRow_greedy (c : Centroid) (dets : List (Centroid × Hist)) (h : dets ≠ []) :
    IsGreedyChoice c dets (argminRow c dets) := by
  have hne : (dets.map fun d => dist2 c d.1) ≠ [] := by
    simpa using h
  have hlen : argminRow c dets < dets.length := by
    have := argminIdx_lt_length _ hne
    simpa [argminRow] using this
  refine ⟨hlen, ?_, ?_⟩
  · intro k hk
    rw [← getD_map_dist c dets _ hlen, ← getD_map_dist c dets k hk]
    simpa [argminRow] using argminIdx_le _ hne k (by simpa using hk)
  · intro k hk
    have hk' : k < dets.length := lt_trans hk hlen
    rw [← getD_map_dist c dets _ hlen, ← getD_map_dist c dets k hk']
    simpa [argminRow] using
      argminIdx_first (dets.map fun d => dist2 c d.1) k (by simpa [argminRow] using hk)

/-! ## Matching-loop structure -/

/-- The tracks surviving the matching loop keep their relative (dictionary
insertion) order: their keys form a sublist of the input keys. -/
lemma matchLoop_keys_sublist (md mdis : Nat) (dets : List (Centroid × Hist))
    (l : List (Nat × Track)) : ∀ u : List Nat,
    ((matchLoop md mdis dets l u).1.map Prod.fst).Sublist (l.map Prod.fst) := by
  induction l with
  | nil => intro u; simp [matchLoop]
  | cons e rest ih =>
    intro u
    obtain ⟨pid, tr⟩ := e
    simp only [matchLoop]
    split
    · simpa using (ih _).cons₂ pid
    · split
      · exact (ih u).trans (List.sublist_cons_self _ _)
      · simpa using (ih u).cons₂ pid

/-- The loop never discards an already-claimed column. -/
lemma matchLoop_used_mono (md mdis : Nat) (dets : List (Centroid × Hist))
    (l : List (Nat × Track)) : ∀ u : List Nat, ∀ j ∈ u, j ∈ (matchLoop md mdis dets l u).2 := by
  induction l with
  | nil => intro u j hj; simpa [matchLoop] using hj
  | cons e rest ih =>
    intro u j hj
    obtain ⟨pid, tr⟩ := e
    simp only [matchLoop]
    split
    · exact ih _ j (List.mem_cons_of_mem _ hj)
    · split
      · exact ih u j hj
      · exact ih u j hj

/-- Every output entry of the loop descends from an input entry with the same
key and the same stored fingerprint; the counter is 0 (match) or incremented. -/
lemma matchLoop_mem_src (md mdis : Nat) (dets : List (Centroid × Hist))
    (l : List (Nat × Track)) : ∀ u : List Nat, ∀ pid : Nat, ∀ tr' : Track,
    (pid, tr') ∈ (matchLoop md mdis dets l u).1 →
    ∃ tr, (pid, tr) ∈ l ∧ tr'.hist = tr.hist ∧
      (tr'.disappeared = 0 ∨ tr' = { tr with disappeared := tr.disappeared + 1 }) := by
  induction l with
  | nil => intro u pid tr' h; simp [matchLoop] at h
  | cons e rest ih =>
    intro u pid tr' h
    obtain ⟨p, t⟩ := e
    simp only [matchLoop] at h
    split at h
    · rcases List.mem_cons.mp h with h₁ | h₁
      · injection h₁ with h₂ h₃
        subst h₂; subst h₃
        exact ⟨t, List.mem_cons_self _ _, rfl, Or.inl rfl⟩
      · obtain ⟨tr, hm, hh, hc⟩ := ih _ pid tr' h₁
        exact ⟨tr, List.mem_cons_of_mem _ hm, hh, hc⟩
    · split at h
      · obtain ⟨tr, hm, hh, hc⟩ := ih u pid tr' h
        exact ⟨tr, List.mem_cons_of_mem _ hm, hh, hc⟩
      · rcases List.mem_cons.mp h with h₁ | h₁
        · injection h₁ with h₂ h₃
          subst h₂; subst h₃
          exact ⟨t, List.mem_cons_self _ _, rfl, Or.inr rfl⟩
        · obtain ⟨tr, hm, hh, hc⟩ := ih u pid tr' h₁
          exact ⟨tr, List.mem_cons_of_mem _ hm, hh, hc⟩

/-- Per-track trichotomy of the matching loop: a live track is either matched
(counter reset to 0, fingerprint kept), or aged by exactly one with the
counter still within bounds, or dropped precisely because the incremented
counter exceeds `max_disappeared`. -/
lemma matchLoop_mem_cases (md mdis : Nat) (dets : List (Centroid × Hist))
    (l : List (Nat × Track)) (pid : Nat) (tr : Track) :
    ∀ u : List Nat, (l.map Prod.fst).Nodup → (pid, tr) ∈ l →
    (∃ c', (pid, Track.mk c' tr.hist 0) ∈ (matchLoop md mdis dets l u).1) ∨
      (tr.disappeared + 1 ≤ mdis ∧
        (pid, Track.mk tr.centroid tr.hist (tr.disappeared + 1)) ∈ (matchLoop md mdis dets l u).1) ∨
      (tr.disappeared + 1 > mdis ∧ pid ∉ (matchLoop md mdis dets l u).1.map Prod.fst) := by
  induction l with
  | nil => intro u _ hm; simp at hm
  | cons e rest ih =>
    intro u hnd hm
    obtain ⟨p, t⟩ := e
    rw [List.map_cons, List.nodup_cons] at hnd
    rcases List.mem_cons.mp hm with h₁ | h₁
    · injection h₁ with h₂ h₃
      subst h₂; subst h₃
      simp only [matchLoop]
      split
      · exact Or.inl ⟨_, List.mem_cons_self _ _⟩
      · split
        case isTrue hgt =>
          refine Or.inr (Or.inr ⟨hgt, ?_⟩)
          exact fun hmem => hnd.1 ((matchLoop_keys_sublist md mdis dets rest u).subset hmem)
        case isFalse hle =>
          exact Or.inr (Or.inl ⟨Nat.le_of_not_lt hle, List.mem_cons_self _ _⟩)
    · have hp : pid ≠ p := by
        intro hpe
        exact hnd.1 (hpe ▸ List.mem_map.mpr ⟨(pid, tr), h₁, rfl⟩)
      simp only [matchLoop]
      split
      · rcases ih _ hnd.2 h₁ with ⟨c', hc⟩ | ⟨hle, hc⟩ | ⟨hgt, hc⟩
        · exact Or.inl ⟨c', List.mem_cons_of_mem _ hc⟩
        · exact Or.inr (Or.inl ⟨hle, List.mem_cons_of_mem _ hc⟩)
        · refine Or.inr (Or.inr ⟨hgt, ?_⟩)
          simp only [List.map_cons, List.mem_cons]
          rintro (h₂ | h₂)
          · exact hp h₂
          · exact hc h₂
      · split
        · rcases ih u hnd.2 h₁ with ⟨c', hc⟩ | ⟨hle, hc⟩ | ⟨hgt, hc⟩
          · exact Or.inl ⟨c', hc⟩
          · exact Or.inr (Or.inl ⟨hle, hc⟩)
          · exact Or.inr (Or.inr ⟨hgt, hc⟩)
        · rcases ih u hnd.2 h₁ with ⟨c', hc⟩ | ⟨hle, hc⟩ | ⟨hgt, hc⟩
          · exact Or.inl ⟨c', List.mem_cons_of_mem _ hc⟩
          · exact Or.inr (Or.inl ⟨hle, List.mem_cons_of_mem _ hc⟩)
          · refine Or.inr (Or.inr ⟨hgt, ?_⟩)
            simp only [List.map_cons, List.mem_cons]
            rintro (h₂ | h₂)
            · exact hp h₂
            · exact hc h₂

/-- The instrumented loop computes exactly what the source loop computes. -/
lemma matchLoopA_fst (md mdis : Nat) (dets : List (Centroid × Hist))
    (l : List (Nat × Track)) : ∀ u : List Nat,
    (matchLoopA md mdis dets l u).1 = matchLoop md mdis dets l u := by
  induction l with
  | nil => intro u; simp [matchLoopA, matchLoop]
  | cons e rest ih =>
    intro u
    obtain ⟨pid, tr⟩ := e
    simp only [matchLoopA, matchLoop]
    split
    · rw [ih]
    · split
      · exact ih u
      · rw [ih]

/-- The recorded assignment columns avoid the initial claimed set and are
pairwise distinct (each accepted column is claimed before the loop recurses). -/
lemma matchLoopA_columns (md mdis : Nat) (dets : List (Centroid × Hist))
    (l : List (Nat × Track)) : ∀ u : List Nat,
    ((matchLoopA md mdis dets l u).2.map Prod.snd).Nodup ∧
      ∀ j ∈ (matchLoopA md mdis dets l u).2.map Prod.snd, j ∉ u := by
  induction l with
  | nil => intro u; simp [matchLoopA]
  | cons e rest ih =>
    intro u
    obtain ⟨pid, tr⟩ := e
    simp only [matchLoopA]
    split
    case isTrue hacc =>
      obtain ⟨hnd, hav⟩ := ih (argminRow tr.centroid dets :: u)
      constructor
      · simp only [List.map_cons, List.nodup_cons]
        exact ⟨fun hmem => (hav _ hmem) (List.mem_cons_self _ _), hnd⟩
      · simp only [List.map_cons, List.mem_cons]
        rintro j (rfl | hj)
        · exact hacc.2.2
        · exact fun hju => (hav j hj) (List.mem_cons_of_mem _ hju)
    case isFalse =>
      split
      · exact ih u
      · exact ih u

/-! ## Registration structure -/

/-- Folding `register` over a detection list appends the block of fresh tracks
and advances the id counter by the number of detections. -/
lemma foldl_register (xs : List (Centroid × Hist)) : ∀ s : ReIDTracker,
    xs.foldl (fun st d => st.register d.1 d.2) s =
      { s with
        tracked_players := s.tracked_players ++ newEntries s.next_player_id xs
        next_player_id := s.next_player_id + xs.length } := by
  induction xs with
  | nil => intro s; simp [newEntries]
  | cons d ds ih =>
    intro s
    rw [List.foldl_cons, ih]
    simp only [ReIDTracker.register, newEntries, List.length_cons, ReIDTracker.mk.injEq]
    refine ⟨by omega, ?_, trivial, trivial⟩
    simp [List.append_assoc]

/-- The keys of a fresh block are the consecutive ids starting at `n`. -/
lemma newEntries_keys (xs : List (Centroid × Hist)) : ∀ n : Nat,
    (newEntries n xs).map Prod.fst = (List.range xs.length).map (fun i => n + i) := by
  induction xs with
  | nil => intro n; simp [newEntries]
  | cons d ds ih =>
    intro n
    rw [newEntries, List.map_cons, ih (n + 1), List.length_cons, List.range_succ_eq_map,
      List.map_cons, List.map_map]
    have hf : ((fun i => n + i) ∘ Nat.succ) = fun i => (n + 1) + i := funext fun i => by
      simp only [Function.comp_apply]
      omega
    rw [hf]
    simp

/-- Membership bound for the keys of a fresh block. -/
lemma mem_newEntries_keys (xs : List (Centroid × Hist)) (n p : Nat)
    (h : p ∈ (newEntries n xs).map Prod.fst) : n ≤ p ∧ p < n + xs.length := by
  rw [newEntries_keys] at h
  obtain ⟨i, hi, hip⟩ := List.mem_map.mp h
  rw [List.mem_range] at hi
  omega

/-- The keys of a fresh block are pairwise distinct. -/
lemma newEntries_keys_nodup (xs : List (Centroid × Hist)) (n : Nat) :
    ((newEntries n xs).map Prod.fst).Nodup := by
  rw [newEntries_keys]
  exact (List.nodup_range _).map fun a b h => by omega

/-- Every entry of a fresh block has a zero counter and an id at least `n`. -/
lemma newEntries_fields (xs : List (Centroid × Hist)) : ∀ n : Nat,
    ∀ e ∈ newEntries n xs, e.2.disappeared = 0 ∧ n ≤ e.1 := by
  induction xs with
  | nil => intro n e he; simp [newEntries] at he
  | cons d ds ih =>
    intro n e he
    rcases List.mem_cons.mp he with h | h
    · subst h; exact ⟨rfl, le_refl n⟩
    · obtain ⟨h1, h2⟩ := ih (n + 1) e h
      exact ⟨h1, by omega⟩

/-- The number of fresh tracks equals the number of registered detections. -/
lemma newEntries_length (xs : List (Centroid × Hist)) : ∀ n : Nat,
    (newEntries n xs).length = xs.length := by
  induction xs with
  | nil => intro n; simp [newEntries]
  | cons d ds ih => intro n; simp [newEntries, ih]

/-! ## `updateCore` structure, well-formedness, identity lifecycle -/

/-- Key decomposition of one `update` step: the surviving old keys (a sublist of
the previous keys, in order) followed by the freshly minted consecutive ids;
the id counter advances by exactly the number of new registrations. -/
lemma updateCore_keys (s : ReIDTracker) (dets : List (Centroid × Hist)) :
    ∃ surv m, surv.Sublist (s.tracked_players.map Prod.fst) ∧
      (updateCore s dets).tracked_players.map Prod.fst =
        surv ++ (List.range m).map (fun i => s.next_player_id + i) ∧
      (updateCore s dets).next_player_id = s.next_player_id + m := by
  rw [updateCore]
  split
  case isTrue hde =>
    have hsub :
        (((s.tracked_players.map fun e =>
              (e.1, { e.2 with disappeared := e.2.disappeared + 1 })).filter fun e =>
            decide (e.2.disappeared ≤ s.max_disappeared)).map Prod.fst).Sublist
          (s.tracked_players.map Prod.fst) := by
      have h1 := (List.filter_sublist
        (l := s.tracked_players.map fun e =>
          (e.1, { e.2 with disappeared := e.2.disappeared + 1 }))
        (p := fun e => decide (e.2.disappeared ≤ s.max_disappeared))).map Prod.fst
      simpa [List.map_map, Function.comp] using h1
    exact ⟨_, 0, hsub, by simp, by simp⟩
  case isFalse hde =>
    split
    case isTrue hemp =>
      rw [foldl_register]
      refine ⟨[], dets.length, List.nil_sublist _, ?_, by simp⟩
      have : s.tracked_players = [] := List.isEmpty_iff.mp hemp
      simp [this, newEntries_keys]
    case isFalse hemp =>
      rw [foldl_register]
      refine ⟨(matchLoop s.max_distance s.max_disappeared dets s.tracked_players []).1.map
        Prod.fst,
        ((dets.enum.filter fun p =>
          decide (p.1 ∉
            (matchLoop s.max_distance s.max_disappeared dets s.tracked_players []).2)).map
          Prod.snd).length,
        matchLoop_keys_sublist _ _ _ _ _, ?_, by simp⟩
      simp [newEntries_keys]

/-- The id counter never decreases. -/
lemma updateCore_next_le (s : ReIDTracker) (dets : List (Centroid × Hist)) :
    s.next_player_id ≤ (updateCore s dets).next_player_id := by
  obtain ⟨surv, m, _, _, hnext⟩ := updateCore_keys s dets
  omega

/-- Well-formedness is preserved by every `update` step. -/
lemma WF_updateCore (s : ReIDTracker) (dets : List (Centroid × Hist)) (h : WF s) :
    WF (updateCore s dets) := by
  obtain ⟨surv, m, hsub, hkeys, hnext⟩ := updateCore_keys s dets
  constructor
  · rw [hkeys]
    refine List.Nodup.append (hsub.nodup h.1) ((List.nodup_range _).map fun a b hab => by omega)
      ?_
    intro a ha hb
    obtain ⟨i, _, hia⟩ := List.mem_map.mp hb
    have := h.2 a (hsub.subset ha)
    omega
  · intro p hp
    rw [hkeys] at hp
    rw [hnext]
    rcases List.mem_append.mp hp with hp₁ | hp₁
    · have := h.2 p (hsub.subset hp₁)
      omega
    · obtain ⟨i, hi, hip⟩ := List.mem_map.mp hp₁
      rw [List.mem_range] at hi
      omega

/-- A removed identity cannot come back in one step: ids below the counter that
are not live stay dead (fresh registrations mint ids at or above the counter). -/
lemma updateCore_dead (s : ReIDTracker) (dets : List (Centroid × Hist)) (p : Nat)
    (hlt : p < s.next_player_id) (hnot : p ∉ s.tracked_players.map Prod.fst) :
    p ∉ (updateCore s dets).tracked_players.map Prod.fst := by
  obtain ⟨surv, m, hsub, hkeys, hnext⟩ := updateCore_keys s dets
  rw [hkeys]
  intro hp
  rcases List.mem_append.mp hp with hp₁ | hp₁
  · exact hnot (hsub.subset hp₁)
  · obtain ⟨i, hi, hip⟩ := List.mem_map.mp hp₁
    omega

/-- Running a session splits along concatenation of the frame list. -/
lemma run_append (s : ReIDTracker) (a b : List (List (Centroid × Hist))) :
    run s (a ++ b) = run (run s a) b := by
  simp [run, List.foldl_append]

/-- Well-formedness is preserved by whole sessions. -/
lemma WF_run (fs : List (List (Centroid × Hist))) : ∀ s : ReIDTracker, WF s → WF (run s fs) := by
  induction fs with
  | nil => intro s h; simpa [run] using h
  | cons f fs ih =>
    intro s h
    have : run s (f :: fs) = run (updateCore s f) fs := by simp [run]
    rw [this]
    exact ih _ (WF_updateCore s f h)

/-- The id counter never decreases over a session. -/
lemma run_next_le (fs : List (List (Centroid × Hist))) : ∀ s : ReIDTracker,
    s.next_player_id ≤ (run s fs).next_player_id := by
  induction fs with
  | nil => intro s; simp [run]
  | cons f fs ih =>
    intro s
    have : run s (f :: fs) = run (updateCore s f) fs := by simp [run]
    rw [this]
    exact le_trans (updateCore_next_le s f) (ih _)

/-- Dead identities stay dead over whole sessions. -/
lemma run_dead (fs : List (List (Centroid × Hist))) : ∀ s : ReIDTracker, ∀ p : Nat,
    p < s.next_player_id → p ∉ s.tracked_players.map Prod.fst →
    p ∉ (run s fs).tracked_players.map Prod.fst := by
  induction fs with
  | nil => intro s p _ hnot; simpa [run] using hnot
  | cons f fs ih =>
    intro s p hlt hnot
    have : run s (f :: fs) = run (updateCore s f) fs := by simp [run]
    rw [this]
    exact ih _ p (lt_of_lt_of_le hlt (updateCore_next_le s f)) (updateCore_dead s f p hlt hnot)

/-- The fresh tracker is well-formed. -/
lemma WF_init (a b : Nat) : WF (ReIDTracker.init a b) := by
  constructor <;> simp [ReIDTracker.init]

/-- Single-call trichotomy for a live track `(pid, tr)` of a well-formed state:
matched (counter 0, fingerprint kept and only possible with detections
present), aged by exactly one within bounds, or removed exactly because the
incremented counter exceeds `max_disappeared`. -/
lemma updateCore_mem_cases (s : ReIDTracker) (dets : List (Centroid × Hist)) (pid : Nat)
    (tr : Track) (hwf : WF s) (hm : (pid, tr) ∈ s.tracked_players) :
    (dets ≠ [] ∧ ∃ c', (pid, Track.mk c' tr.hist 0) ∈ (updateCore s dets).tracked_players) ∨
      (tr.disappeared + 1 ≤ s.max_disappeared ∧
        (pid, Track.mk tr.centroid tr.hist (tr.disappeared + 1)) ∈
          (updateCore s dets).tracked_players) ∨
      (tr.disappeared + 1 > s.max_disappeared ∧
        pid ∉ (updateCore s dets).tracked_players.map Prod.fst) := by
  have hpidlt : pid < s.next_player_id := hwf.2 pid (List.mem_map.mpr ⟨(pid, tr), hm, rfl⟩)
  rw [updateCore]
  split
  case isTrue hde =>
    by_cases hcnt : tr.disappeared + 1 ≤ s.max_disappeared
    · refine Or.inr (Or.inl ⟨hcnt, ?_⟩)
      refine List.mem_filter.mpr ⟨List.mem_map.mpr ⟨(pid, tr), hm, rfl⟩, ?_⟩
      simpa using hcnt
    · refine Or.inr (Or.inr ⟨Nat.lt_of_not_le hcnt, ?_⟩)
      intro hmem
      obtain ⟨e, he, hef⟩ := List.mem_map.mp hmem
      obtain ⟨hemem, hecond⟩ := List.mem_filter.mp he
      obtain ⟨e₀, he₀, hee⟩ := List.mem_map.mp hemem
      have he₀pid : e₀.1 = pid := by
        have : e.1 = pid := hef
        rw [← hee] at this
        exact this
      have he₀mem : (pid, e₀.2) ∈ s.tracked_players := by
        have : e₀ = (pid, e₀.2) := by
          rw [← he₀pid]
        rw [← this]
        exact he₀
      have heq : e₀.2 = tr := nodup_keys_eq hwf.1 he₀mem hm
      rw [← hee] at hecond
      simp only [decide_eq_true_eq] at hecond
      rw [heq] at hecond
      exact hcnt hecond
  case isFalse hde =>
    split
    case isTrue hemp =>
      exact absurd hm (by simp [List.isEmpty_iff.mp hemp])
    case isFalse hemp =>
      have hdne : dets ≠ [] := by
        intro h
        rw [h] at hde
        simp at hde
      rw [foldl_register]
      rcases matchLoop_mem_cases s.max_distance s.max_disappeared dets s.tracked_players pid tr
          [] hwf.1 hm with ⟨c', hc⟩ | ⟨hle, hc⟩ | ⟨hgt, hc⟩
      · exact Or.inl ⟨hdne, c', List.mem_append_left _ hc⟩
      · exact Or.inr (Or.inl ⟨hle, List.mem_append_left _ hc⟩)
      · refine Or.inr (Or.inr ⟨hgt, ?_⟩)
        rw [List.map_append]
        intro hp
        rcases List.mem_append.mp hp with hp₁ | hp₁
        · exact hc hp₁
        · have hge : s.next_player_id ≤ pid := (mem_newEntries_keys _ _ _ hp₁).1
          omega

/-! ## Fingerprint extraction in `update` -/

/-- Zipping detections with their own mapped fingerprints. -/
lemma zipWith_centroid_map (dets : List Detection) (g : Detection → Hist) :
    List.zipWith (fun d h => (d.centroid, h)) dets (dets.map g) =
      dets.map fun d => (d.centroid, g d) := by
  induction dets with
  | nil => simp
  | cons d ds ih => simp [ih]

/-- When no detection has a degenerate box, every extraction succeeds. -/
lemma mapM_calc_ok (frame : Frame) (dets : List Detection)
    (h : ∀ d ∈ dets, ¬(sliceLen frame.rows d.bbox.2.1 d.bbox.2.2.2 = 0 ∨
      sliceLen frame.cols d.bbox.1 d.bbox.2.2.1 = 0)) :
    dets.mapM (fun d => calculate_histogram frame d.bbox) =
      Except.ok (dets.map fun d => frame.histOf d.bbox) := by
  induction dets with
  | nil => rfl
  | cons d ds ih =>
    have hd : calculate_histogram frame d.bbox = Except.ok (frame.histOf d.bbox) := by
      simp [calculate_histogram, h d (List.mem_cons_self _ _)]
    rw [List.mapM_cons, hd, ih fun x hx => h x (List.mem_cons_of_mem _ hx)]
    rfl

/-- One degenerate box anywhere in the list makes the whole extraction pass
fail (the Python exception aborts `update`). -/
lemma mapM_calc_error (frame : Frame) (dets : List Detection) (d : Detection) (hd : d ∈ dets)
    (hdeg : sliceLen frame.rows d.bbox.2.1 d.bbox.2.2.2 = 0 ∨
      sliceLen frame.cols d.bbox.1 d.bbox.2.2.1 = 0) :
    dets.mapM (fun d => calculate_histogram frame d.bbox) =
      Except.error CvError.invalidRegion := by
  induction dets with
  | nil => simp at hd
  | cons x xs ih =>
    rcases List.mem_cons.mp hd with h₁ | h₁
    · subst h₁
      rw [List.mapM_cons]
      have hx : calculate_histogram frame d.bbox = Except.error CvError.invalidRegion := by
        simp [calculate_histogram, hdeg]
      rw [hx]
      rfl
    · rw [List.mapM_cons]
      cases hx : calculate_histogram frame x.bbox with
      | error e => cases e; rfl
      | ok v => rw [ih h₁]; rfl

/-- With every box non-degenerate, the interleaved cold-start loop registers
every detection in order and succeeds. -/
lemma registerLoop_ok (frame : Frame) (dets : List Detection) : ∀ s : ReIDTracker,
    (∀ d ∈ dets, ¬(sliceLen frame.rows d.bbox.2.1 d.bbox.2.2.2 = 0 ∨
      sliceLen frame.cols d.bbox.1 d.bbox.2.2.1 = 0)) →
    registerLoop s dets frame =
      Except.ok (dets.foldl (fun st d => st.register d.centroid (frame.histOf d.bbox)) s) := by
  induction dets with
  | nil => intro s _; rfl
  | cons d ds ih =>
    intro s h
    have hd : calculate_histogram frame d.bbox = Except.ok (frame.histOf d.bbox) := by
      simp [calculate_histogram, h d (List.mem_cons_self _ _)]
    simp only [registerLoop, hd]
    rw [ih _ fun x hx => h x (List.mem_cons_of_mem _ hx)]
    rfl

/-- A degenerate box anywhere in the cold-start loop aborts it: the call ends
in the extraction error, with some (partially registered) state attached. -/
lemma registerLoop_error (frame : Frame) (dets : List Detection) :
    ∀ (s : ReIDTracker) (d : Detection), d ∈ dets →
    (sliceLen frame.rows d.bbox.2.1 d.bbox.2.2.2 = 0 ∨
      sliceLen frame.cols d.bbox.1 d.bbox.2.2.1 = 0) →
    ∃ s', registerLoop s dets frame = Except.error (CvError.invalidRegion, s') := by
  induction dets with
  | nil => intro s d hd _; simp at hd
  | cons x xs ih =>
    intro s d hd hdeg
    cases hx : calculate_histogram frame x.bbox with
    | error e =>
      cases e
      exact ⟨s, by simp only [registerLoop, hx]⟩
    | ok h =>
      have hdx : d ∈ xs := by
        rcases List.mem_cons.mp hd with h₁ | h₁
        · subst h₁
          rw [show calculate_histogram frame d.bbox = Except.error CvError.invalidRegion from
            by simp [calculate_histogram, hdeg]] at hx
          cases hx
        · exact h₁
      obtain ⟨s', hs'⟩ := ih (s.register x.centroid h) d hdx hdeg
      refine ⟨s', ?_⟩
      simp only [registerLoop, hx]
      exact hs'

/-- On non-degenerate input, `update` succeeds and reduces to `updateCore` on
the freshly extracted fingerprints (in the cold-start branch the interleaved
loop and the hoisted extraction agree because nothing fails). -/
lemma update_eq_ok (s : ReIDTracker) (dets : List Detection) (frame : Frame)
    (h : ∀ d ∈ dets, ¬(sliceLen frame.rows d.bbox.2.1 d.bbox.2.2.2 = 0 ∨
      sliceLen frame.cols d.bbox.1 d.bbox.2.2.1 = 0)) :
    s.update dets frame =
      Except.ok (updateCore s (dets.map fun d => (d.centroid, frame.histOf d.bbox))) := by
  rw [ReIDTracker.update]
  by_cases hde : dets.isEmpty
  · rw [if_pos hde]
    have : dets = [] := List.isEmpty_iff.mp hde
    subst this
    rfl
  · have hne : dets ≠ [] := by
      intro hnil
      rw [hnil] at hde
      exact hde rfl
    rw [if_neg hde]
    by_cases hemp : s.tracked_players.isEmpty
    · rw [if_pos hemp, registerLoop_ok frame dets s h]
      congr 1
      rw [updateCore]
      rw [if_neg (fun hmape : (dets.map fun d =>
          (d.centroid, frame.histOf d.bbox)).isEmpty = true =>
        hne (List.map_eq_nil_iff.mp (List.isEmpty_iff.mp hmape)))]
      rw [if_pos hemp, List.foldl_map]
    · rw [if_neg hemp, mapM_calc_ok frame dets h]
      show Except.ok _ = _
      rw [zipWith_centroid_map]

/-! ## The single-track fixpoint step -/

/-- A tracker holding exactly one track, fed the detection with that track's
own centroid and fingerprint, accepts the match: the centroid is rewritten to
itself, the counter resets to 0, no registration happens, and the id counter
is untouched. -/
lemma updateCore_self_match (st : ReIDTracker) (pid : Nat) (tr : Track)
    (hs : st.tracked_players = [(pid, tr)]) (hmd : 0 < st.max_distance) :
    updateCore st [(tr.centroid, tr.hist)] =
      { st with tracked_players := [(pid, Track.mk tr.centroid tr.hist 0)] } := by
  have hco : correl_gt_half tr.hist tr.hist = true := correl_gt_half_self tr.hist
  have hdd : dist2 tr.centroid tr.centroid = 0 := by simp [dist2]
  have hmd2 : (0 : Int) < (st.max_distance : Int) ^ 2 := by positivity
  rw [updateCore]
  rw [hs]
  simp only [List.isEmpty_cons, List.isEmpty_nil, if_false, Bool.false_eq_true]
  have hloop : matchLoop st.max_distance st.max_disappeared [(tr.centroid, tr.hist)]
      [(pid, tr)] [] =
      ([(pid, Track.mk tr.centroid tr.hist 0)], [0]) := by
    rw [matchLoop]
    rw [if_pos]
    · rw [matchLoop]
      simp [argminRow, argminIdx]
    · refine ⟨?_, ?_, ?_⟩
      · simpa [argminRow, argminIdx, hdd] using hmd2
      · simpa [argminRow, argminIdx] using hco
      · simp
  rw [hloop]
  simp [List.enum, foldl_register, newEntries]

/-! ## Claim theorems -/

/-- C1 counterexample: with one live track (fingerprint `[1, 2]`, counter 5)
and one detection at distance 1 with the proportional (perfectly correlated)
fingerprint `[2, 4]`, the match is accepted — centroid rewritten to `(1, 0)`,
counter reset to 0 — yet the stored fingerprint stays `[1, 2]`, not the
detection's `[2, 4]`: the claim that acceptance also rewrites the fingerprint
is false on the code (tracker.py lines 124-126 never touch `'hist'`). -/
theorem c1_counterexample :
    (updateCore
        { next_player_id := 1
          tracked_players := [(0, Track.mk (0, 0) [1, 2] 5)]
          max_disappeared := 20
          max_distance := 50 }
        [((1, 0), [2, 4])]).tracked_players =
      [(0, Track.mk (1, 0) [1, 2] 0)] ∧ ([1, 2] : Hist) ≠ [2, 4] := by
  have hcor : correl_gt_half [1, 2] [2, 4] = true := by
    norm_num [correl_gt_half, sumQ]
  constructor
  · rw [updateCore]
    have hloop : matchLoop 50 20 [((1, 0), [2, 4])] [(0, Track.mk (0, 0) [1, 2] 5)] [] =
        ([(0, Track.mk (1, 0) [1, 2] 0)], [0]) := by
      rw [matchLoop]
      rw [if_pos]
      · rw [matchLoop]
        simp [argminRow, argminIdx]
      · refine ⟨by decide, ?_, by decide⟩
        simpa [argminRow, argminIdx] using hcor
    simp only [List.isEmpty_cons, List.isEmpty_nil, Bool.false_eq_true, if_false]
    rw [hloop]
    simp [foldl_register, newEntries, List.enum]
  · decide

/-- C1 (amended): when a track's candidate match is accepted (distance,
appearance and unclaimed-column checks all pass), the track's stored centroid
is set to the matched detection's centroid, its disappearance counter is reset
to 0, and the detection's column is marked claimed — but the stored appearance
fingerprint is left unchanged (it keeps `tr.hist`, not the detection's). -/
theorem c1_match_effects (md mdis : Nat) (dets : List (Centroid × Hist)) (pid : Nat)
    (tr : Track) (rest : List (Nat × Track)) (u : List Nat)
    (hacc : dist2 tr.centroid (dets.getD (argminRow tr.centroid dets) detDefault).1 <
        (md : Int) ^ 2 ∧
      correl_gt_half tr.hist (dets.getD (argminRow tr.centroid dets) detDefault).2 = true ∧
      argminRow tr.centroid dets ∉ u) :
    matchLoop md mdis dets ((pid, tr) :: rest) u =
      ((pid, Track.mk (dets.getD (argminRow tr.centroid dets) detDefault).1 tr.hist 0) ::
          (matchLoop md mdis dets rest (argminRow tr.centroid dets :: u)).1,
        (matchLoop md mdis dets rest (argminRow tr.centroid dets :: u)).2) ∧
    argminRow tr.centroid dets ∈ (matchLoop md mdis dets ((pid, tr) :: rest) u).2 := by
  constructor
  · simp only [matchLoop]
    rw [if_pos hacc]
  · simp only [matchLoop]
    rw [if_pos hacc]
    exact matchLoop_used_mono md mdis dets rest _ _ (List.mem_cons_self _ _)

/-- C1 witness: the amended statement at a concrete accepted match. -/
theorem c1_witness :
    matchLoop 50 20 [((1, 0), ([1, 2] : Hist))] [(7, Track.mk (0, 0) [1, 2] 5)] [] =
      ((7, Track.mk
          (([((1, 0), ([1, 2] : Hist))].getD
            (argminRow (0, 0) [((1, 0), [1, 2])]) detDefault).1) [1, 2] 0) ::
          (matchLoop 50 20 [((1, 0), [1, 2])] []
            (argminRow (0, 0) [((1, 0), [1, 2])] :: [])).1,
        (matchLoop 50 20 [((1, 0), [1, 2])] []
          (argminRow (0, 0) [((1, 0), [1, 2])] :: [])).2) ∧
    argminRow (0, 0) [((1, 0), ([1, 2] : Hist))] ∈
      (matchLoop 50 20 [((1, 0), [1, 2])] [(7, Track.mk (0, 0) [1, 2] 5)] []).2 :=
  c1_match_effects 50 20 [((1, 0), [1, 2])] 7 (Track.mk (0, 0) [1, 2] 5) [] []
    ⟨by decide, correl_gt_half_self [1, 2], by decide⟩

/-- C4: within one `update` call, matching is a 1:1 assignment — the
instrumented loop `matchLoopA` computes exactly the source loop `matchLoop`
(first conjunct), and the detection columns it assigns to tracks are pairwise
distinct (second conjunct): once a column is claimed by one track, no
later-processed track is matched to it, so no detection is matched to two
different tracks. -/
theorem c4_exclusive_assignment (md mdis : Nat) (dets : List (Centroid × Hist))
    (l : List (Nat × Track)) :
    (matchLoopA md mdis dets l []).1 = matchLoop md mdis dets l [] ∧
    ((matchLoopA md mdis dets l []).2.map Prod.snd).Nodup :=
  ⟨matchLoopA_fst md mdis dets l [], (matchLoopA_columns md mdis dets l []).1⟩

/-- C7 counterexample: a zero-width `player` box survives `main.py`'s
class-only detection preparation (it is handed to the Engine, not dropped),
and on an empty tracker the Engine registers the valid detection that precedes
it before the extraction failure aborts the call — so both "dropped before it
reaches the Engine" and "it is never matched or registered" (as a guarantee
achieved by dropping, leaving the rest of the frame processed) are false on
the code: the degenerate detection reaches the Engine and the call dies midway
through registration. -/
theorem c7_counterexample :
    prepare_detections [("player", (5, 5, 5, 9))] = [Detection.mk (5, 5, 5, 9) (5, 7)] ∧
    (ReIDTracker.init 20 75).update
        [Detection.mk (0, 0, 10, 10) (5, 5), Detection.mk (5, 5, 5, 9) (5, 7)]
        (Frame.mk 100 100 fun _ => [1]) =
      Except.error (CvError.invalidRegion,
        { next_player_id := 1
          tracked_players := [(0, Track.mk (5, 5) [1] 0)]
          max_disappeared := 20
          max_distance := 75 }) := by
  constructor
  · rfl
  · rfl

/-- C7 (amended): on a bounding box whose clipped crop is empty, fingerprint
extraction does fail with the `InvalidRegion` condition (no silent zero-vector
substitution) — but the detection is not dropped: main.py forwards it, and
whenever such a detection is in the list handed to the Engine, the `update`
call ends in that error instead of returning (second conjunct).  When live
tracks are present, every fingerprint is extracted before any mutation, so the
state at the error is exactly the pre-call state (third conjunct); with no
live tracks, extraction is interleaved with registration (tracker.py lines
81-83), so detections preceding the failure are already registered when the
call aborts — the error's attached state. -/
theorem c7_error_propagates (s : ReIDTracker) (dets : List Detection) (frame : Frame)
    (d : Detection) (hd : d ∈ dets)
    (hdeg : sliceLen frame.rows d.bbox.2.1 d.bbox.2.2.2 = 0 ∨
      sliceLen frame.cols d.bbox.1 d.bbox.2.2.1 = 0) :
    calculate_histogram frame d.bbox = Except.error CvError.invalidRegion ∧
    (∃ s', s.update dets frame = Except.error (CvError.invalidRegion, s')) ∧
    (s.tracked_players ≠ [] →
      s.update dets frame = Except.error (CvError.invalidRegion, s)) := by
  have hne : dets ≠ [] := by
    intro h
    rw [h] at hd
    simp at hd
  have hde : ¬ dets.isEmpty = true := by
    simpa [List.isEmpty_iff] using hne
  refine ⟨by simp [calculate_histogram, hdeg], ?_, ?_⟩
  · by_cases hemp : s.tracked_players.isEmpty
    · rw [ReIDTracker.update, if_neg hde, if_pos hemp]
      exact registerLoop_error frame dets s d hd hdeg
    · refine ⟨s, ?_⟩
      rw [ReIDTracker.update, if_neg hde, if_neg hemp,
        mapM_calc_error frame dets d hd hdeg]
  · intro hne'
    have hemp : ¬ s.tracked_players.isEmpty = true := by
      simpa [List.isEmpty_iff] using hne'
    rw [ReIDTracker.update, if_neg hde, if_neg hemp,
      mapM_calc_error frame dets d hd hdeg]

/-- C7 witness: the amended statement on a tracker with one live track and a
frame holding one valid and one degenerate detection — the call errors and,
because tracks are live, the attached state is the unchanged pre-call state. -/
theorem c7_witness :
    calculate_histogram (Frame.mk 100 100 fun _ => [1])
        (Detection.mk (5, 5, 5, 9) (5, 7)).bbox = Except.error CvError.invalidRegion ∧
    (∃ s', (ReIDTracker.mk 1 [(0, Track.mk (0, 0) [1] 0)] 20 75).update
        [Detection.mk (0, 0, 10, 10) (5, 5), Detection.mk (5, 5, 5, 9) (5, 7)]
        (Frame.mk 100 100 fun _ => [1]) = Except.error (CvError.invalidRegion, s')) ∧
    ((ReIDTracker.mk 1 [(0, Track.mk (0, 0) [1] 0)] 20 75).tracked_players ≠ [] →
      (ReIDTracker.mk 1 [(0, Track.mk (0, 0) [1] 0)] 20 75).update
        [Detection.mk (0, 0, 10, 10) (5, 5), Detection.mk (5, 5, 5, 9) (5, 7)]
        (Frame.mk 100 100 fun _ => [1]) =
        Except.error (CvError.invalidRegion,
          ReIDTracker.mk 1 [(0, Track.mk (0, 0) [1] 0)] 20 75)) :=
  c7_error_propagates (ReIDTracker.mk 1 [(0, Track.mk (0, 0) [1] 0)] 20 75)
    [Detection.mk (0, 0, 10, 10) (5, 5), Detection.mk (5, 5, 5, 9) (5, 7)]
    (Frame.mk 100 100 fun _ => [1]) (Detection.mk (5, 5, 5, 9) (5, 7))
    (by decide) (by decide)

/-- C10: `update` is deterministic — equal states and equal detection lists
yield equal results (the model fixes the iteration orders that CPython fixes:
dict insertion order for tracks, ascending column index for unclaimed
detections) — and tracks are enumerated in registration (insertion) order,
preserved across removals: the resulting keys are an order-preserving sublist
of the old keys followed by the freshly minted consecutive ids. -/
theorem c10_deterministic_ordered (s₁ s₂ : ReIDTracker) (d₁ d₂ : List (Centroid × Hist))
    (hs : s₁ = s₂) (hd : d₁ = d₂) :
    updateCore s₁ d₁ = updateCore s₂ d₂ ∧
    ∃ surv m, surv.Sublist (s₁.tracked_players.map Prod.fst) ∧
      (updateCore s₁ d₁).tracked_players.map Prod.fst =
        surv ++ (List.range m).map (fun i => s₁.next_player_id + i) ∧
      (updateCore s₁ d₁).next_player_id = s₁.next_player_id + m := by
  subst hs; subst hd
  exact ⟨rfl, updateCore_keys s₁ d₁⟩

/-- C10 witness: determinism and order preservation at a concrete state. -/
theorem c10_witness :
    updateCore
        { next_player_id := 2
          tracked_players := [(0, Track.mk (0, 0) [1, 2] 1), (1, Track.mk (9, 9) [5, 6] 0)]
          max_disappeared := 20
          max_distance := 50 } [((1, 0), [2, 4])] =
      updateCore
        { next_player_id := 2
          tracked_players := [(0, Track.mk (0, 0) [1, 2] 1), (1, Track.mk (9, 9) [5, 6] 0)]
          max_disappeared := 20
          max_distance := 50 } [((1, 0), [2, 4])] ∧
    ∃ surv m, surv.Sublist
        ([(0, Track.mk (0, 0) [1, 2] 1), (1, Track.mk (9, 9) [5, 6] 0)].map Prod.fst) ∧
      (updateCore
          { next_player_id := 2
            tracked_players := [(0, Track.mk (0, 0) [1, 2] 1), (1, Track.mk (9, 9) [5, 6] 0)]
            max_disappeared := 20
            max_distance := 50 } [((1, 0), [2, 4])]).tracked_players.map Prod.fst =
        surv ++ (List.range m).map (fun i => 2 + i) ∧
      (updateCore
          { next_player_id := 2
            tracked_players := [(0, Track.mk (0, 0) [1, 2] 1), (1, Track.mk (9, 9) [5, 6] 0)]
            max_disappeared := 20
            max_distance := 50 } [((1, 0), [2, 4])]).next_player_id = 2 + m :=
  c10_deterministic_ordered _ _ _ _ rfl rfl

/-- C2: disappearance-counter lifecycle.  First conjunct (any state, any
frame): a live track of a well-formed tracker is, after one `update` step,
either matched (counter reset to 0 — only possible when detections are
present), or unmatched with its counter incremented by exactly 1 and kept
because the new counter is at most `max_disappeared`, or removed exactly
because the incremented counter strictly exceeds `max_disappeared`.  Second
conjunct (spec Scenario C): with `max_disappeared = 2`, a fresh track missing
for 2 consecutive frames survives with counter 2, and is removed on the 3rd
consecutive miss. -/
theorem c2_disappearance_lifecycle (s : ReIDTracker) (dets : List (Centroid × Hist))
    (pid : Nat) (tr : Track) (hwf : WF s) (hm : (pid, tr) ∈ s.tracked_players) :
    ((dets ≠ [] ∧ ∃ c', (pid, Track.mk c' tr.hist 0) ∈ (updateCore s dets).tracked_players) ∨
      (tr.disappeared + 1 ≤ s.max_disappeared ∧
        (pid, Track.mk tr.centroid tr.hist (tr.disappeared + 1)) ∈
          (updateCore s dets).tracked_players) ∨
      (tr.disappeared + 1 > s.max_disappeared ∧
        pid ∉ (updateCore s dets).tracked_players.map Prod.fst)) ∧
    (∀ (pid₀ : Nat) (c : Centroid) (h : Hist) (mdist : Nat),
      (run (ReIDTracker.mk (pid₀ + 1) [(pid₀, Track.mk c h 0)] 2 mdist)
          (List.replicate 2 [])).tracked_players = [(pid₀, Track.mk c h 2)] ∧
      (run (ReIDTracker.mk (pid₀ + 1) [(pid₀, Track.mk c h 0)] 2 mdist)
          (List.replicate 3 [])).tracked_players = []) := by
  refine ⟨updateCore_mem_cases s dets pid tr hwf hm, ?_⟩
  intro pid₀ c h mdist
  constructor
  · show (updateCore (updateCore _ []) []).tracked_players = _
    rw [updateCore, updateCore]
    simp [updateCore]
  · show (updateCore (updateCore (updateCore _ []) []) []).tracked_players = _
    rw [updateCore, updateCore, updateCore]
    simp [updateCore]

/-- C2 witness: the lifecycle at a concrete state (one live track, counter 0,
an empty frame: the unmatched-and-kept case). -/
theorem c2_witness :
    ((([] : List (Centroid × Hist)) ≠ [] ∧ ∃ c',
        (0, Track.mk c' [1] 0) ∈
          (updateCore (ReIDTracker.mk 1 [(0, Track.mk (0, 0) [1] 0)] 20 50) []).tracked_players) ∨
      (0 + 1 ≤ 20 ∧
        (0, Track.mk (0, 0) [1] (0 + 1)) ∈
          (updateCore (ReIDTracker.mk 1 [(0, Track.mk (0, 0) [1] 0)] 20 50) []).tracked_players) ∨
      (0 + 1 > 20 ∧
        0 ∉ (updateCore
          (ReIDTracker.mk 1 [(0, Track.mk (0, 0) [1] 0)] 20 50) []).tracked_players.map
            Prod.fst)) ∧
    (∀ (pid₀ : Nat) (c : Centroid) (h : Hist) (mdist : Nat),
      (run (ReIDTracker.mk (pid₀ + 1) [(pid₀, Track.mk c h 0)] 2 mdist)
          (List.replicate 2 [])).tracked_players = [(pid₀, Track.mk c h 2)] ∧
      (run (ReIDTracker.mk (pid₀ + 1) [(pid₀, Track.mk c h 0)] 2 mdist)
          (List.replicate 3 [])).tracked_players = []) :=
  c2_disappearance_lifecycle (ReIDTracker.mk 1 [(0, Track.mk (0, 0) [1] 0)] 20 50) []
    0 (Track.mk (0, 0) [1] 0) ⟨by decide, by decide⟩ (List.mem_cons_self _ _)

/-- C3: identity uniqueness and no reuse.  For any session from a fresh
tracker: live ids are pairwise distinct at every point (first conjunct); and
once an id alive after `pre` is gone after `pre ++ post`, it never comes back
in any continuation (second conjunct) — ids are minted from the monotonically
increasing counter and never reused. -/
theorem c3_identity_never_reused (mdis mdist : Nat)
    (frames pre post : List (List (Centroid × Hist))) (p : Nat)
    (h₁ : p ∈ (run (ReIDTracker.init mdis mdist) pre).tracked_players.map Prod.fst)
    (h₂ : p ∉ (run (ReIDTracker.init mdis mdist) (pre ++ post)).tracked_players.map Prod.fst) :
    ((run (ReIDTracker.init mdis mdist) frames).tracked_players.map Prod.fst).Nodup ∧
    ∀ more, p ∉
      (run (ReIDTracker.init mdis mdist) (pre ++ post ++ more)).tracked_players.map Prod.fst := by
  constructor
  · exact (WF_run frames _ (WF_init mdis mdist)).1
  · intro more
    have hwf1 : WF (run (ReIDTracker.init mdis mdist) pre) :=
      WF_run pre _ (WF_init mdis mdist)
    have hlt : p < (run (ReIDTracker.init mdis mdist) pre).next_player_id := hwf1.2 p h₁
    have hlt2 : p < (run (ReIDTracker.init mdis mdist) (pre ++ post)).next_player_id := by
      rw [run_append]
      exact lt_of_lt_of_le hlt (run_next_le post _)
    rw [run_append]
    exact run_dead more _ p hlt2 h₂

/-- C3 witness: id 0 is registered, dies (`max_disappeared = 0`), and is not
reassigned when a later detection registers (it gets id 1, not 0). -/
theorem c3_witness :
    ((run (ReIDTracker.init 0 50)
        [[((0, 0), [1])], [], [((0, 0), [1])]]).tracked_players.map Prod.fst).Nodup ∧
    0 ∉ (run (ReIDTracker.init 0 50)
        ([[((0, 0), [1])]] ++ [[]] ++ [[((0, 0), [1])]])).tracked_players.map Prod.fst :=
  ⟨(c3_identity_never_reused 0 50 [[((0, 0), [1])], [], [((0, 0), [1])]]
      [[((0, 0), [1])]] [[]] 0 (by decide) (by decide)).1,
    (c3_identity_never_reused 0 50 [[((0, 0), [1])], [], [((0, 0), [1])]]
      [[((0, 0), [1])]] [[]] 0 (by decide) (by decide)).2 [[((0, 0), [1])]]⟩

/-- C5: in the general case, each track row independently selects the column
of minimum Euclidean distance with ties broken by lowest column index (the
`IsGreedyChoice` conjunct, about the code's `argmin`), and the candidate is
accepted — the track appears in the loop's output matched to that column's
centroid with counter 0 — if and only if (i) the squared distance is strictly
below `max_distance²` (equivalently, the Euclidean distance is strictly below
`max_distance`), (ii) the correlation similarity exceeds 0.5, and (iii) the
column is not already claimed. -/
theorem c5_greedy_gated_acceptance (md mdis : Nat) (dets : List (Centroid × Hist))
    (pid : Nat) (tr : Track) (rest : List (Nat × Track)) (u : List Nat)
    (hne : dets ≠ []) (hpid : pid ∉ rest.map Prod.fst) :
    IsGreedyChoice tr.centroid dets (argminRow tr.centroid dets) ∧
    ((pid, Track.mk (dets.getD (argminRow tr.centroid dets) detDefault).1 tr.hist 0) ∈
        (matchLoop md mdis dets ((pid, tr) :: rest) u).1 ↔
      dist2 tr.centroid (dets.getD (argminRow tr.centroid dets) detDefault).1 <
          (md : Int) ^ 2 ∧
        correl_gt_half tr.hist (dets.getD (argminRow tr.centroid dets) detDefault).2 = true ∧
        argminRow tr.centroid dets ∉ u) := by
  refine ⟨argminRow_greedy tr.centroid dets hne, ?_, ?_⟩
  · intro hmem
    by_contra hcond
    simp only [matchLoop] at hmem
    rw [if_neg hcond] at hmem
    split at hmem
    · exact hpid ((matchLoop_keys_sublist md mdis dets rest u).subset
        (List.mem_map.mpr ⟨_, hmem, rfl⟩))
    · rcases List.mem_cons.mp hmem with h₁ | h₁
      · injection h₁ with h₂ h₃
        have : (0 : Nat) = tr.disappeared + 1 := congrArg Track.disappeared h₃
        omega
      · exact hpid ((matchLoop_keys_sublist md mdis dets rest u).subset
          (List.mem_map.mpr ⟨_, h₁, rfl⟩))
  · intro hcond
    simp only [matchLoop]
    rw [if_pos hcond]
    exact List.mem_cons_self _ _

/-- C5 witness: the greedy choice and the acceptance equivalence at a concrete
row with two detection columns. -/
theorem c5_witness :
    IsGreedyChoice (1, 1) [((0, 0), ([1, 2] : Hist)), ((9, 9), [5, 6])]
      (argminRow (1, 1) [((0, 0), [1, 2]), ((9, 9), [5, 6])]) ∧
    ((7, Track.mk
        (([((0, 0), ([1, 2] : Hist)), ((9, 9), [5, 6])].getD
          (argminRow (1, 1) [((0, 0), [1, 2]), ((9, 9), [5, 6])]) detDefault).1) [1, 2] 0) ∈
        (matchLoop 50 20 [((0, 0), [1, 2]), ((9, 9), [5, 6])]
          [(7, Track.mk (1, 1) [1, 2] 3)] []).1 ↔
      dist2 (1, 1)
          ([((0, 0), ([1, 2] : Hist)), ((9, 9), [5, 6])].getD
            (argminRow (1, 1) [((0, 0), [1, 2]), ((9, 9), [5, 6])]) detDefault).1 <
          (50 : Int) ^ 2 ∧
        correl_gt_half [1, 2]
          ([((0, 0), ([1, 2] : Hist)), ((9, 9), [5, 6])].getD
            (argminRow (1, 1) [((0, 0), [1, 2]), ((9, 9), [5, 6])]) detDefault).2 = true ∧
        argminRow (1, 1) [((0, 0), [1, 2]), ((9, 9), [5, 6])] ∉ ([] : List Nat)) :=
  c5_greedy_gated_acceptance 50 20 [((0, 0), [1, 2]), ((9, 9), [5, 6])] 7
    (Track.mk (1, 1) [1, 2] 3) [] [] (by decide) (by decide)

/-- C6: cold-start registration.  With zero live tracks and `k > 0` detections
whose boxes are non-degenerate, `update` succeeds and returns exactly the `k`
brand-new tracks `newEntries`: consecutive freshly minted ids starting at the
current counter (hence `k` distinct identities, none previously live), each
with counter 0 and the fingerprint extracted from its own bounding box; the
result is written down in full, so no existing state is consulted for
matching. -/
theorem c6_cold_start (s : ReIDTracker) (detections : List Detection) (frame : Frame)
    (k : Nat) (h0 : s.tracked_players = []) (hk : detections.length = k) (hpos : 0 < k)
    (hok : ∀ d ∈ detections, ¬(sliceLen frame.rows d.bbox.2.1 d.bbox.2.2.2 = 0 ∨
      sliceLen frame.cols d.bbox.1 d.bbox.2.2.1 = 0)) :
    s.update detections frame = Except.ok
      { s with
        tracked_players :=
          newEntries s.next_player_id (detections.map fun d => (d.centroid, frame.histOf d.bbox))
        next_player_id := s.next_player_id + k } ∧
    (newEntries s.next_player_id
      (detections.map fun d => (d.centroid, frame.histOf d.bbox))).length = k ∧
    ((newEntries s.next_player_id
      (detections.map fun d => (d.centroid, frame.histOf d.bbox))).map Prod.fst).Nodup ∧
    ∀ e ∈ newEntries s.next_player_id (detections.map fun d => (d.centroid, frame.histOf d.bbox)),
      e.2.disappeared = 0 ∧ s.next_player_id ≤ e.1 := by
  refine ⟨?_, by simp [newEntries_length, hk], newEntries_keys_nodup _ _,
    newEntries_fields _ _⟩
  rw [update_eq_ok s detections frame hok]
  have hne : detections.map (fun d => (d.centroid, frame.histOf d.bbox)) ≠ [] := by
    intro hnil
    have := congrArg List.length hnil
    simp [hk] at this
    omega
  rw [updateCore]
  rw [if_neg (by simpa [List.isEmpty_iff] using hne)]
  rw [if_pos (by simp [h0])]
  rw [foldl_register, h0]
  simp [hk]

/-- C6 witness: cold start on one valid detection registers exactly it. -/
theorem c6_witness :
    (ReIDTracker.init 20 75).update [Detection.mk (0, 0, 10, 10) (5, 5)]
        (Frame.mk 100 100 fun _ => [1, 2]) = Except.ok
      { ReIDTracker.init 20 75 with
        tracked_players :=
          newEntries (ReIDTracker.init 20 75).next_player_id
            ([Detection.mk (0, 0, 10, 10) (5, 5)].map fun d =>
              (d.centroid, (Frame.mk 100 100 fun _ => [1, 2]).histOf d.bbox))
        next_player_id := (ReIDTracker.init 20 75).next_player_id + 1 } ∧
    (newEntries (ReIDTracker.init 20 75).next_player_id
      ([Detection.mk (0, 0, 10, 10) (5, 5)].map fun d =>
        (d.centroid, (Frame.mk 100 100 fun _ => [1, 2]).histOf d.bbox))).length = 1 ∧
    ((newEntries (ReIDTracker.init 20 75).next_player_id
      ([Detection.mk (0, 0, 10, 10) (5, 5)].map fun d =>
        (d.centroid, (Frame.mk 100 100 fun _ => [1, 2]).histOf d.bbox))).map Prod.fst).Nodup ∧
    ∀ e ∈ newEntries (ReIDTracker.init 20 75).next_player_id
      ([Detection.mk (0, 0, 10, 10) (5, 5)].map fun d =>
        (d.centroid, (Frame.mk 100 100 fun _ => [1, 2]).histOf d.bbox)),
      e.2.disappeared = 0 ∧ (ReIDTracker.init 20 75).next_player_id ≤ e.1 :=
  c6_cold_start (ReIDTracker.init 20 75) [Detection.mk (0, 0, 10, 10) (5, 5)]
    (Frame.mk 100 100 fun _ => [1, 2]) 1 rfl rfl (by decide) (by decide)

/-- C8: idempotent re-match.  If the tracker holds exactly one live track and
is fed, on every frame, the single detection with that track's own centroid
and fingerprint (and the spatial gate is non-trivial, `max_distance > 0`),
then after any positive number of `update` steps the state is exactly the
original one with the counter at 0: the identity and the id counter never
change (no new identity is ever created) and the disappearance counter is 0 on
every frame. -/
theorem c8_idempotent_rematch (s : ReIDTracker) (pid : Nat) (tr : Track)
    (hs : s.tracked_players = [(pid, tr)]) (hmd : 0 < s.max_distance) (k : Nat) :
    (fun st => updateCore st [(tr.centroid, tr.hist)])^[k + 1] s =
      { s with tracked_players := [(pid, Track.mk tr.centroid tr.hist 0)] } := by
  have hstep1 : updateCore s [(tr.centroid, tr.hist)] =
      { s with tracked_players := [(pid, Track.mk tr.centroid tr.hist 0)] } :=
    updateCore_self_match s pid tr hs hmd
  have hfix : updateCore { s with tracked_players := [(pid, Track.mk tr.centroid tr.hist 0)] }
      [(tr.centroid, tr.hist)] =
      { s with tracked_players := [(pid, Track.mk tr.centroid tr.hist 0)] } := by
    have h2 := updateCore_self_match
      { s with tracked_players := [(pid, Track.mk tr.centroid tr.hist 0)] } pid
      (Track.mk tr.centroid tr.hist 0) rfl hmd
    exact h2
  induction k with
  | zero => simpa using hstep1
  | succ n ihn =>
    rw [Function.iterate_succ_apply']
    rw [ihn]
    exact hfix

/-- C8 witness: two consecutive re-matches of the same detection keep identity
3 with counter 0 and an unchanged id counter. -/
theorem c8_witness :
    (fun st => updateCore st [((2, 3), [4, 5])])^[2]
        (ReIDTracker.mk 4 [(3, Track.mk (2, 3) [4, 5] 7)] 20 50) =
      { ReIDTracker.mk 4 [(3, Track.mk (2, 3) [4, 5] 7)] 20 50 with
        tracked_players := [(3, Track.mk (2, 3) [4, 5] 0)] } :=
  c8_idempotent_rematch (ReIDTracker.mk 4 [(3, Track.mk (2, 3) [4, 5] 7)] 20 50) 3
    (Track.mk (2, 3) [4, 5] 7) rfl (by decide) 1

/-- C9: the stored fingerprint is write-once.  For any track alive in a
well-formed state, and any continuation of the session after which that
identity is still live, the stored fingerprint is unchanged: `update` never
rewrites `'hist'` — it is fixed at registration. -/
theorem c9_fingerprint_immutable (ds : List (List (Centroid × Hist))) :
    ∀ (s : ReIDTracker) (pid : Nat) (tr tr' : Track), WF s →
    (pid, tr) ∈ s.tracked_players → (pid, tr') ∈ (run s ds).tracked_players →
    tr'.hist = tr.hist := by
  induction ds with
  | nil =>
    intro s pid tr tr' hwf hm hm'
    have : tr' = tr := nodup_keys_eq hwf.1 (by simpa [run] using hm') hm
    rw [this]
  | cons d ds ih =>
    intro s pid tr tr' hwf hm hm'
    have hrun : run s (d :: ds) = run (updateCore s d) ds := by simp [run]
    rw [hrun] at hm'
    have hpidlt : pid < s.next_player_id := hwf.2 pid (List.mem_map.mpr ⟨(pid, tr), hm, rfl⟩)
    rcases updateCore_mem_cases s d pid tr hwf hm with ⟨_, c', hc⟩ | ⟨_, hc⟩ | ⟨_, hc⟩
    · exact ih (updateCore s d) pid (Track.mk c' tr.hist 0) tr' (WF_updateCore s d hwf) hc hm'
    · exact ih (updateCore s d) pid (Track.mk tr.centroid tr.hist (tr.disappeared + 1)) tr'
        (WF_updateCore s d hwf) hc hm'
    · exfalso
      have hdead := run_dead ds (updateCore s d) pid
        (lt_of_lt_of_le hpidlt (updateCore_next_le s d)) hc
      exact hdead (List.mem_map.mpr ⟨(pid, tr'), hm', rfl⟩)

/-- C9 witness: after an empty frame (counter ages to 1), the surviving
track's fingerprint is the one it was registered with. -/
theorem c9_witness :
    (Track.mk (0, 0) [1, 2] 1).hist = (Track.mk (0, 0) [1, 2] 0).hist :=
  c9_fingerprint_immutable [[]] (ReIDTracker.mk 1 [(0, Track.mk (0, 0) [1, 2] 0)] 20 50)
    0 (Track.mk (0, 0) [1, 2] 0) (Track.mk (0, 0) [1, 2] 1)
    ⟨by decide, by decide⟩ (List.mem_cons_self _ _) (by decide)
